import Mathlib

/-!
# Mentorscue page behaviour (`static/js/main.js`)

A shallow embedding of the client-side helpers of `static/js/main.js` and the
properties established about them.

Conventions of the embedding:

* a JavaScript string is the list of its UTF-16 code units (`JsString`), so that
  `length`, the regular expressions (which have no `u` flag) and `includes` work on the
  same units as in the source;
* class names, validation messages and `style.display` values are fixed tokens and are
  kept as Lean strings;
* DOM elements are records of the properties the functions read or write;
* a function that may throw returns `Except`.
-/

namespace Mentorscue

/-! ## Strings -/

/-- A JavaScript string: the sequence of its UTF-16 code units. -/
abbrev JsString := List Nat

/-- UTF-16 code units of one Unicode scalar value. -/
def utf16 (c : Char) : List Nat :=
  if c.toNat < 65536 then [c.toNat]
  else [55296 + (c.toNat - 65536) / 1024, 56320 + (c.toNat - 65536) % 1024]

/-- The JavaScript string written as a literal. -/
def jsStr (s : String) : JsString := s.toList.flatMap utf16

/-- The regular-expression class `\s` of ECMAScript: white space and line terminators. -/
def isWhiteSpace (u : Nat) : Bool :=
  u == 9 || u == 10 || u == 11 || u == 12 || u == 13 || u == 32 || u == 160 ||
  u == 5760 || (8192 ≤ u && u ≤ 8202) || u == 8232 || u == 8233 || u == 8239 ||
  u == 8287 || u == 12288 || u == 65279

/-- The class `\d`: the ASCII digits `0`-`9`. -/
def isDigit (u : Nat) : Bool := 48 ≤ u && u ≤ 57

/-- The class `[1-9]`. -/
def isDigit19 (u : Nat) : Bool := 49 ≤ u && u ≤ 57

/-- The class `[\+]`. -/
def isPlus (u : Nat) : Bool := u == 43

/-- The literal `@`. -/
def isAt (u : Nat) : Bool := u == 64

/-- The literal `\.`. -/
def isDot (u : Nat) : Bool := u == 46

/-- The class `[^\s@]`. -/
def isNotSpaceAt (u : Nat) : Bool := !(isWhiteSpace u || u == 64)

/-- `str.replace(/c+/g, '')` for a character class `c`: scanning from the left, every
maximal run of code units of the class is replaced by the empty string. -/
def replaceRuns (c : Nat → Bool) : JsString → JsString
  | [] => []
  | u :: us =>
    if c u then replaceRuns c (us.dropWhile c)
    else u :: replaceRuns c us
termination_by s => s.length
decreasing_by
  all_goals simp_wf
  · exact Nat.lt_succ_of_le (List.dropWhile_suffix _).length_le

/-- `str.replace(/\s+/g, '')`. -/
def replaceSpaceRuns (s : JsString) : JsString := replaceRuns isWhiteSpace s

/-! ## Anchored regular expressions made of quantified character classes

Both patterns of the source have the form `^ c1 q1 c2 q2 ... $`, each `ci` a character
class and each `qi` a quantifier (`?`, `+`, `{m,n}` or none). -/

/-- One quantified character class: `cls{min,max}`; `max = none` is unbounded. -/
structure Item where
  cls : Nat → Bool
  min : Nat
  max : Option Nat

/-- Whether a repetition count is allowed by the quantifier. -/
def Item.allows (it : Item) (k : Nat) : Bool :=
  decide (it.min ≤ k) && (match it.max with | none => true | some m => decide (k ≤ m))

/-- `RegExp.prototype.test` for `^ items $`: some way of splitting the whole input into
consecutive blocks, one per item, each block made of code units of the class and of a
length the quantifier allows. -/
def matchItems : List Item → JsString → Bool
  | [], s => s.isEmpty
  | it :: rest, s =>
    (List.range (s.length + 1)).any fun k =>
      it.allows k && (s.take k).all it.cls && matchItems rest (s.drop k)

/-- The pattern `/^[\+]?[1-9][\d]{0,15}$/`. -/
def phonePattern : List Item :=
  [⟨isPlus, 0, some 1⟩, ⟨isDigit19, 1, some 1⟩, ⟨isDigit, 0, some 15⟩]

/-- The pattern `/^[^\s@]+@[^\s@]+\.[^\s@]+$/`. -/
def emailPattern : List Item :=
  [⟨isNotSpaceAt, 1, none⟩, ⟨isAt, 1, some 1⟩, ⟨isNotSpaceAt, 1, none⟩,
   ⟨isDot, 1, some 1⟩, ⟨isNotSpaceAt, 1, none⟩]

/-! ## Form fields -/

/-- An input element: its value, its custom validity message and its class list. -/
structure InputElement where
  value : JsString
  customValidity : String
  classList : List String
deriving DecidableEq, Repr

/-- `classList.add(token)`. -/
def classListAdd (cl : List String) (token : String) : List String :=
  if token ∈ cl then cl else cl ++ [token]

/-- `classList.remove(token)`. -/
def classListRemove (cl : List String) (token : String) : List String :=
  cl.filter fun t => t != token

/-- The function `validatePhoneNumber(input)`. -/
def validatePhoneNumber (input : InputElement) : InputElement :=
  let isValid := matchItems phonePattern (replaceSpaceRuns input.value)
  if !input.value.isEmpty && !isValid then
    { input with
      customValidity := "Please enter a valid phone number"
      classList := classListAdd input.classList "is-invalid" }
  else
    { input with
      customValidity := ""
      classList := classListRemove input.classList "is-invalid" }

/-- The function `validateEmail(input)`. -/
def validateEmail (input : InputElement) : InputElement :=
  let isValid := matchItems emailPattern input.value
  if !input.value.isEmpty && !isValid then
    { input with
      customValidity := "Please enter a valid email address"
      classList := classListAdd input.classList "is-invalid" }
  else
    { input with
      customValidity := ""
      classList := classListRemove input.classList "is-invalid" }

/-- A field is marked valid: no custom message and no `is-invalid` class. -/
def MarkedValid (e : InputElement) : Prop :=
  e.customValidity = "" ∧ "is-invalid" ∉ e.classList

/-- A field is marked invalid with the given message. -/
def MarkedInvalid (msg : String) (e : InputElement) : Prop :=
  e.customValidity = msg ∧ "is-invalid" ∈ e.classList

/-- The input with all white space removed, as the specification words it. -/
def stripWhiteSpace (v : JsString) : JsString := v.filter fun u => !isWhiteSpace u

/-- The phone shape of the specification: an optional leading `+`, one digit `1`-`9`,
then at most 15 further digits `0`-`9`, and nothing else. -/
def PhoneShape (s : JsString) : Prop :=
  ∃ sign d rest, s = sign ++ d :: rest ∧ (sign = [] ∨ sign = [43]) ∧
    (49 ≤ d ∧ d ≤ 57) ∧ rest.length ≤ 15 ∧ ∀ x ∈ rest, 48 ≤ x ∧ x ≤ 57

/-- The e-mail shape of the specification, `local@domain.tld`: no white space anywhere,
exactly one `@`, a non-empty part before it, and after it a part that contains a `.`
with at least one character before and at least one after. -/
def EmailShape (v : JsString) : Prop :=
  (∀ u ∈ v, isWhiteSpace u = false) ∧ v.count 64 = 1 ∧
  ∃ loc dom, v = loc ++ 64 :: dom ∧ loc ≠ [] ∧
    ∃ x y, dom = x ++ 46 :: y ∧ x ≠ [] ∧ y ≠ []

/-! ## Count-up animation

Numbers are the integers the dashboard displays; the text of the element is the decimal
rendering of the last integer written, which `parseInt(element.textContent) || 0` reads
back unchanged. -/

/-- The value of `Math.ceil((targetValue - currentValue) / 20)`. -/
def increment (currentValue targetValue : Int) : Int :=
  ⌈((targetValue - currentValue : ℚ) / 20)⌉

/-- One invocation of `animateCountUp(element, targetValue)` on an element that displays
`currentValue`: the value written to the element, and whether a further invocation is
scheduled (`setTimeout(..., 50)`). -/
def animateCountUp (currentValue targetValue : Int) : Int × Bool :=
  let increment := increment currentValue targetValue
  if currentValue < targetValue then (currentValue + increment, true)
  else (targetValue, false)

/-- The chain of invocations started by `animateCountUp`: the values written to the
element, in order. Each scheduled invocation reads the value the previous one wrote.
`none` when the chain is longer than `fuel` invocations. -/
def animateWrites : Nat → Int → Int → Option (List Int)
  | 0, _, _ => none
  | fuel + 1, currentValue, targetValue =>
    match animateCountUp currentValue targetValue with
    | (written, true) => (animateWrites fuel written targetValue).map (written :: ·)
    | (written, false) => some [written]

/-! ## Table filtering -/

/-- A body row of a table: its text and its inline `style.display`. -/
structure TableRow where
  textContent : JsString
  display : String
deriving DecidableEq, Repr

/-- The part of the document `filterTable` works on: for an identifier, the body rows
(`tbody tr`) of the table `getElementById` finds, and the text of the element
`querySelector` finds for `[data-table-count="<identifier>"]`; `none` when there is no
such element. -/
structure Document where
  tables : JsString → Option (List TableRow)
  counters : JsString → Option JsString

/-- The method `String.prototype.includes`: the term occurs as a contiguous part. -/
def includes (text term : JsString) : Bool := decide (term <:+: text)

/-- The decimal rendering of a count inside a template literal. -/
def numberText (n : Nat) : JsString := jsStr (toString n)

/-- The function `updateTableCount(tableId, visible, total)`. -/
def updateTableCount (doc : Document) (tableId : JsString) (visible total : Nat) :
    Document :=
  match doc.counters tableId with
  | some _ =>
    { doc with
      counters := Function.update doc.counters tableId
        (some (if visible = total then jsStr "(" ++ numberText total ++ jsStr ")"
          else jsStr "(" ++ numberText visible ++ jsStr " of " ++ numberText total ++
            jsStr ")")) }
  | none => doc

/-- The callback of `rows.forEach` in `filterTable`: one row is shown or hidden. -/
def filterRow (toLowerCase : JsString → JsString) (searchTerm : JsString)
    (row : TableRow) : TableRow :=
  let text := toLowerCase row.textContent
  let shouldShow := includes text searchTerm
  { row with display := if shouldShow then "" else "none" }

/-- The function `filterTable(tableId, searchTerm)`. The built-in
`String.prototype.toLowerCase` is a parameter. -/
def filterTable (toLowerCase : JsString → JsString) (doc : Document)
    (tableId searchTerm : JsString) : Document :=
  match doc.tables tableId with
  | none => doc
  | some rows =>
    let rows := rows.map (filterRow toLowerCase searchTerm)
    let visibleRows := rows.filter fun row => row.display != "none"
    updateTableCount { doc with tables := Function.update doc.tables tableId (some rows) }
      tableId visibleRows.length rows.length

/-- A row is shown when its inline display is not `none`, the test `filterTable` itself
uses to count the visible rows. -/
def TableRow.Shown (row : TableRow) : Prop := row.display ≠ "none"

instance (row : TableRow) : Decidable row.Shown :=
  inferInstanceAs (Decidable (row.display ≠ "none"))

/-- Lower-casing of the letters `A`-`Z`, which is what `toLowerCase` does on ASCII
text. -/
def asciiLower (s : JsString) : JsString :=
  s.map fun u => if 65 ≤ u ∧ u ≤ 90 then u + 32 else u

/-- A document with one table `t` of the given rows and its counter. -/
def sampleDocument (rows : List TableRow) (count : JsString) : Document where
  tables := fun i => if i = jsStr "t" then some rows else none
  counters := fun i => if i = jsStr "t" then some count else none

/-! ## Tutor search -/

/-- A `.tutor-item` element: the value of its checkbox and its inline display. -/
structure TutorItem where
  checkboxValue : JsString
  display : String
deriving DecidableEq, Repr

/-- The part of the page the tutor search works on: the `#tutorSearch` input when
present, every `.tutor-item` element, and the URLs passed to `fetch` so far. -/
structure SearchPage where
  tutorSearch : Option InputElement
  tutorItems : List TutorItem
  requests : List JsString
deriving DecidableEq, Repr

/-- The characters `encodeURIComponent` leaves as they are: letters, digits and
`- _ . ! ~ * ' ( )`. -/
def isUriUnreserved (u : Nat) : Bool :=
  (65 ≤ u && u ≤ 90) || (97 ≤ u && u ≤ 122) || (48 ≤ u && u ≤ 57) ||
  u == 45 || u == 95 || u == 46 || u == 33 || u == 126 || u == 42 || u == 39 ||
  u == 40 || u == 41

/-- An upper-case hexadecimal digit. -/
def hexDigit (n : Nat) : Nat := if n < 10 then 48 + n else 55 + n

/-- The escape `%XX` of each octet of the UTF-8 encoding of a code point. -/
def percentEncode (cp : Nat) : JsString :=
  let octets :=
    if cp < 128 then [cp]
    else if cp < 2048 then [192 + cp / 64, 128 + cp % 64]
    else if cp < 65536 then [224 + cp / 4096, 128 + cp / 64 % 64, 128 + cp % 64]
    else [240 + cp / 262144, 128 + cp / 4096 % 64, 128 + cp / 64 % 64, 128 + cp % 64]
  octets.flatMap fun b => [37, hexDigit (b / 16), hexDigit (b % 16)]

/-- The built-in `encodeURIComponent`; `none` is the `URIError` thrown on a surrogate
that is not part of a pair. -/
def encodeURIComponent : JsString → Option JsString
  | [] => some []
  | u :: us =>
    if isUriUnreserved u then (encodeURIComponent us).map (u :: ·)
    else if 56320 ≤ u ∧ u ≤ 57343 then none
    else if 55296 ≤ u ∧ u ≤ 56319 then
      match us with
      | v :: vs =>
        if 56320 ≤ v ∧ v ≤ 57343 then
          (encodeURIComponent vs).map
            (percentEncode ((u - 55296) * 1024 + (v - 56320) + 65536) ++ ·)
        else none
      | [] => none
    else (encodeURIComponent us).map (percentEncode u ++ ·)

/-- The function `showAllTutors()`. -/
def showAllTutors (page : SearchPage) : SearchPage :=
  { page with tutorItems := page.tutorItems.map fun item => { item with display := "block" } }

/-- The function `showSearchLoading()`. -/
def showSearchLoading (page : SearchPage) : SearchPage :=
  match page.tutorSearch with
  | some searchInput =>
    { page with
      tutorSearch := some { searchInput with
        classList := classListAdd searchInput.classList "loading" } }
  | none => page

/-- The function `searchTutors(query)`, up to the point where the request has been
issued (the response is handled later, by `updateTutorList`). An error carries the page
as it is when `encodeURIComponent` throws. -/
def searchTutors (page : SearchPage) (query : JsString) : Except SearchPage SearchPage :=
  if query.length < 2 then
    .ok (showAllTutors page)
  else
    let page := showSearchLoading page
    match encodeURIComponent query with
    | some q =>
      .ok { page with requests := page.requests ++ [jsStr "/api/tutors/search?q=" ++ q] }
    | none => .error page

/-! ## Debounced tutor search

Time is counted in milliseconds. A timer never runs before it is due; with the event
loop otherwise idle it runs when it is due, and a timer that is due runs before an input
event of the same instant. -/

/-- A scheduled callback `() => searchTutors(this.value)`: the handle `setTimeout`
returned and the time at which it is due. -/
structure Timer where
  id : Nat
  due : Nat
deriving DecidableEq, Repr

/-- The page and its event loop, as far as the tutor search is concerned: the global
`searchTimeout`, the handle the next `setTimeout` returns, the scheduled callbacks, and
the record of the invocations of `searchTutors` (time and argument). -/
structure World where
  page : SearchPage
  searchTimeout : Option Nat
  nextTimerId : Nat
  pending : List Timer
  searchCalls : List (Nat × JsString)
deriving DecidableEq, Repr

/-- The call `clearTimeout(handle)`; the handle `null` and a handle that is no longer
scheduled cancel nothing. -/
def clearTimeout (pending : List Timer) (handle : Option Nat) : List Timer :=
  match handle with
  | none => pending
  | some id => pending.filter fun t => t.id != id

/-- An `input` event on `#tutorSearch` at time `now`, the field holding `value`: the
listener registered by `initializeSearchFeatures` cancels the scheduled search and
schedules a new one 300 ms later. Without a `#tutorSearch` element no listener is
registered. -/
def onInput (w : World) (now : Nat) (value : JsString) : World :=
  match w.page.tutorSearch with
  | none => w
  | some tutorSearchInput =>
    let pending := clearTimeout w.pending w.searchTimeout
    { w with
      page := { w.page with tutorSearch := some { tutorSearchInput with value := value } }
      pending := pending ++ [⟨w.nextTimerId, now + 300⟩]
      searchTimeout := some w.nextTimerId
      nextTimerId := w.nextTimerId + 1 }

/-- A scheduled callback runs: `searchTutors(this.value)`, with the value the field holds
at that moment. An error thrown by `searchTutors` ends the callback. -/
def fire (w : World) (t : Timer) : World :=
  match w.page.tutorSearch with
  | none => { w with pending := w.pending.filter fun u => u.id != t.id }
  | some tutorSearchInput =>
    { w with
      page :=
        match searchTutors w.page tutorSearchInput.value with
        | .ok page => page
        | .error page => page
      pending := w.pending.filter fun u => u.id != t.id
      searchCalls := w.searchCalls ++ [(t.due, tutorSearchInput.value)] }

/-- The callbacks due at or before `now` run, earliest first. -/
def runDue (w : World) (now : Nat) : World :=
  ((w.pending.filter fun t => t.due ≤ now).insertionSort fun a b => a.due ≤ b.due).foldl
    fire w

/-- A sequence of keystrokes, each given by its time and the value the field then
holds. -/
def run (w : World) (keystrokes : List (Nat × JsString)) : World :=
  keystrokes.foldl (fun w k => onInput (runDue w k.1) k.1 k.2) w

/-- No further keystroke arrives: every scheduled callback runs, earliest first. -/
def settle (w : World) : World :=
  (w.pending.insertionSort fun a b => a.due ≤ b.due).foldl fire w

/-- Each keystroke follows the previous one by less than 300 ms. -/
def Within300 (a b : Nat × JsString) : Prop := a.1 ≤ b.1 ∧ b.1 < a.1 + 300

instance (a b : Nat × JsString) : Decidable (Within300 a b) :=
  inferInstanceAs (Decidable (a.1 ≤ b.1 ∧ b.1 < a.1 + 300))

/-- The network requests a call `searchTutors(query)` issues. -/
def requestsFor (query : JsString) : List JsString :=
  if query.length < 2 then []
  else
    match encodeURIComponent query with
    | some q => [jsStr "/api/tutors/search?q=" ++ q]
    | none => []

/-- A freshly loaded page with an empty search field and no tutor entries. -/
def freshWorld : World :=
  ⟨⟨some ⟨[], "", []⟩, [], []⟩, none, 1, [], []⟩

/-- One search is scheduled, due 300 ms after the keystroke at `t`, the global handle
names it, the field holds `v`, and nothing has been called or requested since the start
(`calls`, `reqs`). -/
def Armed (calls : List (Nat × JsString)) (reqs : List JsString) (w : World) (t : Nat)
    (v : JsString) : Prop :=
  ∃ k field, w.pending = [⟨k, t + 300⟩] ∧ w.searchTimeout = some k ∧
    w.page.tutorSearch = some field ∧ field.value = v ∧
    w.searchCalls = calls ∧ w.page.requests = reqs

/-! ## Local storage and the theme preference -/

/-- The local store of the browser: its entries, whether access to it is denied
(`SecurityError`), and its capacity in code units of keys and values
(`QuotaExceededError` beyond it). -/
structure Storage where
  items : List (JsString × JsString)
  denied : Bool
  quota : Nat
deriving DecidableEq, Repr

/-- The space the entries take. -/
def storageSize (items : List (JsString × JsString)) : Nat :=
  (items.map fun e => e.1.length + e.2.length).sum

/-- The entries after `key` is given `value`: replaced in place, or added at the end. -/
def putItem (items : List (JsString × JsString)) (key value : JsString) :
    List (JsString × JsString) :=
  if items.any (fun e => e.1 == key) then
    items.map fun e => if e.1 == key then (key, value) else e
  else items ++ [(key, value)]

/-- The call `localStorage.getItem(key)`: the stored text, or `none` for `null`. -/
def getItem (store : Storage) (key : JsString) : Except String (Option JsString) :=
  if store.denied then .error "SecurityError"
  else .ok ((store.items.find? fun e => e.1 == key).map fun e => e.2)

/-- The call `localStorage.setItem(key, value)`. -/
def setItem (store : Storage) (key value : JsString) : Except String Storage :=
  if store.denied then .error "SecurityError"
  else if storageSize (putItem store.items key value) > store.quota then
    .error "QuotaExceededError"
  else .ok { store with items := putItem store.items key value }

/-- A JavaScript value as far as these helpers look at it: `null`, a string, or any other
value, named by a tag. -/
inductive JsValue where
  | null
  | str (s : JsString)
  | other (tag : Nat)
deriving DecidableEq, Repr

/-- The built-ins `JSON.stringify` (on values that are neither `null` nor a string: the
text `setItem` receives, or the error thrown) and `JSON.parse` (on a text that is not
empty). -/
structure JsonBuiltins where
  stringifyOther : Nat → Except String JsString
  parse : JsString → Except String JsValue

/-- The call `JSON.parse(text)`: the empty text is not JSON and throws a `SyntaxError`. -/
def jsonParse (json : JsonBuiltins) (text : JsString) : Except String JsValue :=
  if text = [] then .error "SyntaxError" else json.parse text

/-- A lower-case hexadecimal digit. -/
def hexDigitLower (n : Nat) : Nat := if n < 10 then 48 + n else 87 + n

/-- The escape `\uXXXX` of a code unit. -/
def unicodeEscape (u : Nat) : JsString :=
  [92, 117, hexDigitLower (u / 4096 % 16), hexDigitLower (u / 256 % 16),
    hexDigitLower (u / 16 % 16), hexDigitLower (u % 16)]

/-- The inside of a JSON string literal, as `JSON.stringify` writes it; `paired` tells
that the code unit before was a leading surrogate followed by a trailing one. -/
def jsonQuoteBody (paired : Bool) : JsString → JsString
  | [] => []
  | u :: us =>
    if u = 8 then [92, 98] ++ jsonQuoteBody false us
    else if u = 9 then [92, 116] ++ jsonQuoteBody false us
    else if u = 10 then [92, 110] ++ jsonQuoteBody false us
    else if u = 12 then [92, 102] ++ jsonQuoteBody false us
    else if u = 13 then [92, 114] ++ jsonQuoteBody false us
    else if u = 34 then [92, 34] ++ jsonQuoteBody false us
    else if u = 92 then [92, 92] ++ jsonQuoteBody false us
    else if u < 32 then unicodeEscape u ++ jsonQuoteBody false us
    else if 55296 ≤ u ∧ u ≤ 56319 then
      if (us.head?.any fun v => decide (56320 ≤ v ∧ v ≤ 57343)) = true then
        u :: jsonQuoteBody true us
      else unicodeEscape u ++ jsonQuoteBody false us
    else if 56320 ≤ u ∧ u ≤ 57343 then
      if paired = true then u :: jsonQuoteBody false us
      else unicodeEscape u ++ jsonQuoteBody false us
    else u :: jsonQuoteBody false us

/-- The text `JSON.stringify` gives for a string. -/
def jsonQuote (s : JsString) : JsString := 34 :: jsonQuoteBody false s ++ [34]

/-- The call `JSON.stringify(data)`, as the text `setItem` receives. -/
def jsonStringify (json : JsonBuiltins) : JsValue → Except String JsString
  | .null => .ok (jsStr "null")
  | .str s => .ok (jsonQuote s)
  | .other tag => json.stringifyOther tag

deriving instance DecidableEq for Except

/-- The store and the messages written with `console.error`. -/
structure Browser where
  storage : Storage
  console : List String
deriving DecidableEq, Repr

/-- The body of the `try` block of `saveToLocalStorage`. -/
def saveBody (json : JsonBuiltins) (storage : Storage) (key : JsString) (data : JsValue) :
    Except String Storage :=
  match jsonStringify json data with
  | .ok text => setItem storage key text
  | .error e => .error e

/-- The function `saveToLocalStorage(key, data)`. -/
def saveToLocalStorage (json : JsonBuiltins) (browser : Browser) (key : JsString)
    (data : JsValue) : Except String Browser :=
  match saveBody json browser.storage key data with
  | .ok storage => .ok { browser with storage := storage }
  | .error _ =>
    .ok { browser with console := browser.console ++ ["Error saving to localStorage:"] }

/-- The body of the `try` block of `loadFromLocalStorage`. -/
def loadBody (json : JsonBuiltins) (storage : Storage) (key : JsString) :
    Except String JsValue :=
  match getItem storage key with
  | .ok (some data) => if data ≠ [] then jsonParse json data else .ok JsValue.null
  | .ok none => .ok JsValue.null
  | .error e => .error e

/-- The function `loadFromLocalStorage(key)`: the value returned and the browser
afterwards. -/
def loadFromLocalStorage (json : JsonBuiltins) (browser : Browser) (key : JsString) :
    Except String (JsValue × Browser) :=
  match loadBody json browser.storage key with
  | .ok value => .ok (value, browser)
  | .error _ =>
    .ok (JsValue.null,
      { browser with console := browser.console ++ ["Error loading from localStorage:"] })

/-- The page as far as the theme is concerned: the `data-theme` attribute of the body
(`none` when it is not set), the browser, and the notifications shown (message, type,
duration). -/
structure ThemePage where
  dataTheme : Option JsString
  browser : Browser
  notifications : List (JsString × String × Nat)
deriving DecidableEq, Repr

/-- The function `showNotification(message, type, duration)`: a banner is added. -/
def showNotification (page : ThemePage) (message : JsString) (type : String)
    (duration : Nat) : ThemePage :=
  { page with notifications := page.notifications ++ [(message, type, duration)] }

/-- The value of `newTheme` in `toggleTheme`. -/
def newTheme (currentTheme : Option JsString) : JsString :=
  if currentTheme = some (jsStr "dark") then jsStr "light" else jsStr "dark"

/-- The function `toggleTheme()`. -/
def toggleTheme (json : JsonBuiltins) (page : ThemePage) : Except String ThemePage :=
  let currentTheme := page.dataTheme
  let newTheme := newTheme currentTheme
  let page := { page with dataTheme := some newTheme }
  match saveToLocalStorage json page.browser (jsStr "theme") (.str newTheme) with
  | .ok browser =>
    .ok (showNotification { page with browser := browser }
      (jsStr "Switched to " ++ newTheme ++ jsStr " theme") "info" 2000)
  | .error e => .error e

/-- A `JSON.parse` for the texts `null` and plain string literals (no escapes), and a
`JSON.stringify` that rejects every value other than `null` and strings. -/
def plainJson : JsonBuiltins where
  stringifyOther := fun _ => .error "TypeError"
  parse := fun text =>
    if text = jsStr "null" then .ok .null
    else
      match text with
      | 34 :: rest =>
        if rest.getLast? = some 34 ∧
            rest.dropLast.all (fun u => decide (32 ≤ u) && u != 34 && u != 92) = true then
          .ok (.str rest.dropLast)
        else .error "SyntaxError"
      | _ => .error "SyntaxError"

/-- A page without a theme attribute, with an empty store of the given state. -/
def unthemedPage (denied : Bool) (quota : Nat) : ThemePage :=
  ⟨none, ⟨⟨[], denied, quota⟩, []⟩, []⟩

/-- The page `unthemedPage false 100` after one `toggleTheme`. -/
def toggledOnce : ThemePage :=
  ⟨some (jsStr "dark"), ⟨⟨[(jsStr "theme", jsonQuote (jsStr "dark"))], false, 100⟩, []⟩,
    [(jsStr "Switched to dark theme", "info", 2000)]⟩

/-- The page `unthemedPage false 100` after two `toggleTheme`. -/
def toggledTwice : ThemePage :=
  ⟨some (jsStr "light"), ⟨⟨[(jsStr "theme", jsonQuote (jsStr "light"))], false, 100⟩, []⟩,
    [(jsStr "Switched to dark theme", "info", 2000),
      (jsStr "Switched to light theme", "info", 2000)]⟩

/-- The page `unthemedPage denied quota` after one `toggleTheme` whose write to the
store failed. -/
def toggledUnsaved (denied : Bool) (quota : Nat) : ThemePage :=
  ⟨some (jsStr "dark"), ⟨⟨[], denied, quota⟩, ["Error saving to localStorage:"]⟩,
    [(jsStr "Switched to dark theme", "info", 2000)]⟩

/-! ## Form serialisation -/

/-- The value of a form entry: a string, or a file (given by its name). -/
inductive FormValue where
  | text (s : JsString)
  | file (name : JsString)
deriving DecidableEq, Repr

/-- What `data[key]` can be apart from an array: a submitted value, or the member of
`Object.prototype` of that name, which the empty object `data` inherits. -/
inductive Slot where
  | value (v : FormValue)
  | inherited (name : JsString)
deriving DecidableEq, Repr

/-- What `data[key]` can be: one such thing, or an array of them. -/
inductive Held where
  | single (s : Slot)
  | array (items : List Slot)
deriving DecidableEq, Repr

/-- The names of the members every object inherits from `Object.prototype`, apart from
`__proto__`. -/
def objectPrototypeNames : List JsString :=
  [jsStr "constructor", jsStr "toString", jsStr "toLocaleString", jsStr "valueOf",
   jsStr "hasOwnProperty", jsStr "isPrototypeOf", jsStr "propertyIsEnumerable",
   jsStr "__defineGetter__", jsStr "__defineSetter__", jsStr "__lookupGetter__",
   jsStr "__lookupSetter__"]

/-- The truthiness `if (data[key])` tests: of the values that can be held, only the empty
string is falsy. -/
def Held.truthy : Held → Bool
  | .single (.value (.text s)) => !s.isEmpty
  | _ => true

/-- The own property `key` of `data`, if there is one. -/
def ownProperty (data : List (JsString × Held)) (key : JsString) : Option Held :=
  (data.find? fun e => e.1 == key).map fun e => e.2

/-- The property read `data[key]`; `none` is `undefined`. -/
def getProperty (data : List (JsString × Held)) (key : JsString) : Option Held :=
  match ownProperty data key with
  | some held => some held
  | none => if key ∈ objectPrototypeNames then some (.single (.inherited key)) else none

/-- The assignment `data[key] = held`. -/
def setProperty (data : List (JsString × Held)) (key : JsString) (held : Held) :
    List (JsString × Held) :=
  if data.any (fun e => e.1 == key) then
    data.map fun e => if e.1 == key then (key, held) else e
  else data ++ [(key, held)]

/-- The body of the loop of `serializeForm` for one entry. -/
def serializeEntry (data : List (JsString × Held)) (entry : JsString × FormValue) :
    List (JsString × Held) :=
  let key := entry.1
  let value := entry.2
  match getProperty data key with
  | some held =>
    if held.truthy then
      match held with
      | .array items => setProperty data key (.array (items ++ [.value value]))
      | .single s => setProperty data key (.array [s, .value value])
    else setProperty data key (.single (.value value))
  | none => setProperty data key (.single (.value value))

/-- The function `serializeForm(form)`, on the entries of the form in order: the own
properties of the object returned. `none` for a form with a field named `__proto__`,
whose assignment re-parents `data` instead of setting a property; such forms are outside
this embedding. -/
def serializeForm (entries : List (JsString × FormValue)) :
    Option (List (JsString × Held)) :=
  if entries.any (fun e => e.1 == jsStr "__proto__") then none
  else some (entries.foldl serializeEntry [])

/-- The values submitted under a name, in their original order. -/
def submittedUnder (entries : List (JsString × FormValue)) (name : JsString) :
    List FormValue :=
  (entries.filter fun e => e.1 == name).map fun e => e.2

/-- What the specification has the mapping hold for these values of one name: nothing
when there is none, the value itself when there is one, the ordered sequence of all of
them otherwise. -/
def collected : List FormValue → Option Held
  | [] => none
  | [v] => some (.single (.value v))
  | vs => some (.array (vs.map .value))

/-! ## Lemmas on the string helpers and the matcher -/

theorem filter_not_dropWhile (c : Nat → Bool) (s : JsString) :
    (s.dropWhile c).filter (fun u => !c u) = s.filter (fun u => !c u) := by
  induction s with
  | nil => rfl
  | cons u us ih =>
    by_cases h : c u = true
    · simp [List.dropWhile_cons, h] at ih ⊢
      exact ih
    · simp [List.dropWhile_cons, h]

theorem replaceRuns_eq_filter (c : Nat → Bool) (s : JsString) :
    replaceRuns c s = s.filter (fun u => !c u) := by
  suffices H : ∀ (n : Nat) (t : JsString), t.length ≤ n →
      replaceRuns c t = t.filter (fun u => !c u) from H s.length s (Nat.le_refl _)
  intro n
  induction n with
  | zero =>
    intro t ht
    have : t = [] := List.length_eq_zero.mp (Nat.le_zero.mp ht)
    subst this
    rw [replaceRuns]; rfl
  | succ n ih =>
    intro t ht
    cases t with
    | nil => rw [replaceRuns]; rfl
    | cons u us =>
      have hus : us.length ≤ n := by simpa using ht
      rw [replaceRuns]
      by_cases h : c u = true
      · have hlen : (us.dropWhile c).length ≤ n :=
          Nat.le_trans (List.dropWhile_suffix _).length_le hus
        rw [if_pos h, ih _ hlen, filter_not_dropWhile]
        simp [h]
      · rw [if_neg h, ih _ hus]
        simp [h]

theorem replaceSpaceRuns_eq_strip (s : JsString) :
    replaceSpaceRuns s = stripWhiteSpace s :=
  replaceRuns_eq_filter isWhiteSpace s

theorem matchItems_nil (s : JsString) : matchItems [] s = true ↔ s = [] := by
  simp [matchItems]

theorem matchItems_cons (it : Item) (rest : List Item) (s : JsString) :
    matchItems (it :: rest) s = true ↔
      ∃ a b, s = a ++ b ∧ it.allows a.length = true ∧ (∀ u ∈ a, it.cls u = true) ∧
        matchItems rest b = true := by
  constructor
  · intro h
    simp only [matchItems, List.any_eq_true, List.mem_range, Bool.and_eq_true,
      List.all_eq_true] at h
    obtain ⟨k, hk, ⟨hal, hcls⟩, hrest⟩ := h
    refine ⟨s.take k, s.drop k, (List.take_append_drop k s).symm, ?_, hcls, hrest⟩
    have : (s.take k).length = k := by
      rw [List.length_take]; omega
    rw [this]; exact hal
  · rintro ⟨a, b, rfl, hal, hcls, hrest⟩
    simp only [matchItems, List.any_eq_true, List.mem_range, Bool.and_eq_true,
      List.all_eq_true]
    refine ⟨a.length, by rw [List.length_append]; omega, ⟨hal, ?_⟩, ?_⟩
    · simpa using hcls
    · simpa using hrest

theorem matchItems_phone_iff (s : JsString) :
    matchItems phonePattern s = true ↔ PhoneShape s := by
  unfold phonePattern PhoneShape
  simp only [matchItems_cons, matchItems_nil]
  constructor
  · rintro ⟨a1, b1, rfl, h1, c1, a2, b2, rfl, h2, c2, a3, b3, rfl, h3, c3, rfl⟩
    simp only [Item.allows, Bool.and_eq_true, decide_eq_true_eq] at h1 h2 h3
    have ha2 : ∃ d, a2 = [d] := by
      match a2, h2 with
      | [d], _ => exact ⟨d, rfl⟩
      | [], h => simp at h
      | _ :: _ :: _, h => simp at h
    obtain ⟨d, rfl⟩ := ha2
    refine ⟨a1, d, a3, by simp, ?_, ?_, ?_, ?_⟩
    · match a1, h1, c1 with
      | [], _, _ => exact Or.inl rfl
      | [u], _, c => right; simpa [isPlus] using c
      | _ :: _ :: _, h, _ => simp at h
    · simpa [isDigit19] using c2
    · exact h3.2
    · intro x hx; simpa [isDigit] using c3 x hx
  · rintro ⟨sign, d, rest, rfl, hsign, hd, hlen, hrest⟩
    refine ⟨sign, d :: rest, rfl, ?_, ?_, [d], rest, rfl, ?_, ?_, rest, [], by simp, ?_, ?_, rfl⟩
    · rcases hsign with rfl | rfl <;> simp [Item.allows]
    · rcases hsign with rfl | rfl <;> simp [isPlus]
    · simp [Item.allows]
    · simp [isDigit19, hd]
    · simp [Item.allows, hlen]
    · intro x hx; simpa [isDigit] using hrest x hx

theorem isNotSpaceAt_iff (u : Nat) :
    isNotSpaceAt u = true ↔ isWhiteSpace u = false ∧ u ≠ 64 := by
  simp [isNotSpaceAt]

theorem matchItems_email_iff (v : JsString) :
    matchItems emailPattern v = true ↔ EmailShape v := by
  unfold emailPattern EmailShape
  simp only [matchItems_cons, matchItems_nil]
  constructor
  · rintro ⟨a1, b1, rfl, h1, c1, a2, b2, rfl, h2, c2, a3, b3, rfl, h3, c3,
      a4, b4, rfl, h4, c4, a5, b5, rfl, h5, c5, rfl⟩
    simp only [Item.allows, Bool.and_eq_true, decide_eq_true_eq] at h1 h2 h3 h4 h5
    have one : ∀ (a : JsString), (1 ≤ a.length ∧ a.length ≤ 1) → ∃ d, a = [d] := by
      intro a h
      match a, h with
      | [d], _ => exact ⟨d, rfl⟩
      | [], h => simp at h
      | _ :: _ :: _, h => simp at h
    obtain ⟨d2, rfl⟩ := one a2 h2
    obtain ⟨d4, rfl⟩ := one a4 h4
    have e2 : d2 = 64 := by simpa [isAt] using c2
    have e4 : d4 = 46 := by simpa [isDot] using c4
    subst e2 e4
    simp only [isNotSpaceAt_iff] at c1 c3 c5
    have n1 : a1.count 64 = 0 := List.count_eq_zero.mpr fun h => (c1 _ h).2 rfl
    have n3 : a3.count 64 = 0 := List.count_eq_zero.mpr fun h => (c3 _ h).2 rfl
    have n5 : a5.count 64 = 0 := List.count_eq_zero.mpr fun h => (c5 _ h).2 rfl
    refine ⟨?_, ?_, a1, a3 ++ 46 :: a5, by simp, ?_, a3, a5, rfl, ?_, ?_⟩
    · intro u hu
      simp only [List.mem_append, List.mem_cons, List.mem_singleton, List.not_mem_nil,
        or_false] at hu
      rcases hu with hu | rfl | hu | rfl | hu
      · exact (c1 u hu).1
      · decide
      · exact (c3 u hu).1
      · decide
      · exact (c5 u hu).1
    · simp [List.count_append, List.count_cons, n1, n3, n5]
    · intro h; subst h; simp at h1
    · intro h; subst h; simp at h3
    · intro h; subst h; simp at h5
  · rintro ⟨hws, hcount, loc, dom, rfl, hloc, x, y, rfl, hx, hy⟩
    simp only [List.count_append, List.count_cons, beq_self_eq_true, if_true] at hcount
    have n1 : loc.count 64 = 0 := by omega
    have n3 : x.count 64 = 0 := by omega
    have n5 : y.count 64 = 0 := by omega
    rw [List.count_eq_zero] at n1 n3 n5
    have pos : ∀ (a : JsString), a ≠ [] → 1 ≤ a.length := by
      intro a h
      cases a with
      | nil => exact absurd rfl h
      | cons _ _ => simp
    refine ⟨loc, 64 :: (x ++ 46 :: y), rfl, ?_, ?_, [64], x ++ 46 :: y, rfl, ?_, ?_,
      x, 46 :: y, rfl, ?_, ?_, [46], y, rfl, ?_, ?_, y, [], by simp, ?_, ?_, rfl⟩
    · simpa [Item.allows] using pos loc hloc
    · intro u hu
      exact (isNotSpaceAt_iff u).mpr ⟨hws u (by simp [hu]), fun h => n1 (h ▸ hu)⟩
    · simp [Item.allows]
    · simp [isAt]
    · simpa [Item.allows] using pos x hx
    · intro u hu
      exact (isNotSpaceAt_iff u).mpr ⟨hws u (by simp [hu]), fun h => n3 (h ▸ hu)⟩
    · simp [Item.allows]
    · simp [isDot]
    · simpa [Item.allows] using pos y hy
    · intro u hu
      exact (isNotSpaceAt_iff u).mpr ⟨hws u (by simp [hu]), fun h => n5 (h ▸ hu)⟩

theorem not_mem_classListRemove (cl : List String) (t : String) :
    t ∉ classListRemove cl t := by
  simp [classListRemove]

theorem mem_classListAdd (cl : List String) (t : String) : t ∈ classListAdd cl t := by
  unfold classListAdd
  split <;> simp_all

theorem validatePhoneNumber_bad (input : InputElement)
    (h : input.value ≠ [] ∧ ¬ PhoneShape (stripWhiteSpace input.value)) :
    validatePhoneNumber input =
      { input with
        customValidity := "Please enter a valid phone number"
        classList := classListAdd input.classList "is-invalid" } := by
  have hm : matchItems phonePattern (stripWhiteSpace input.value) = false := by
    rw [← Bool.not_eq_true, matchItems_phone_iff]; exact h.2
  unfold validatePhoneNumber
  simp [replaceSpaceRuns_eq_strip, hm, h.1]

theorem validatePhoneNumber_good (input : InputElement)
    (h : ¬ (input.value ≠ [] ∧ ¬ PhoneShape (stripWhiteSpace input.value))) :
    validatePhoneNumber input =
      { input with
        customValidity := ""
        classList := classListRemove input.classList "is-invalid" } := by
  unfold validatePhoneNumber
  by_cases hv : input.value = []
  · simp [hv]
  · have hm : matchItems phonePattern (stripWhiteSpace input.value) = true := by
      rw [matchItems_phone_iff]
      by_contra hp
      exact h ⟨hv, hp⟩
    simp [replaceSpaceRuns_eq_strip, hm]

theorem validateEmail_bad (input : InputElement)
    (h : input.value ≠ [] ∧ ¬ EmailShape input.value) :
    validateEmail input =
      { input with
        customValidity := "Please enter a valid email address"
        classList := classListAdd input.classList "is-invalid" } := by
  have hm : matchItems emailPattern input.value = false := by
    rw [← Bool.not_eq_true, matchItems_email_iff]; exact h.2
  unfold validateEmail
  simp [hm, h.1]

theorem validateEmail_good (input : InputElement)
    (h : ¬ (input.value ≠ [] ∧ ¬ EmailShape input.value)) :
    validateEmail input =
      { input with
        customValidity := ""
        classList := classListRemove input.classList "is-invalid" } := by
  unfold validateEmail
  by_cases hv : input.value = []
  · simp [hv]
  · have hm : matchItems emailPattern input.value = true := by
      rw [matchItems_email_iff]
      by_contra hp
      exact h ⟨hv, hp⟩
    simp [hm]

/-- C1: `validatePhoneNumber` marks the field valid (message cleared, `is-invalid`
removed) exactly when the value is empty or, with all white space removed, has the phone
shape (optional `+`, one digit 1-9, at most 15 further digits, nothing else); it marks
the field invalid (message set, `is-invalid` added) exactly in the other case; the value
itself is left as it was. -/
theorem validatePhoneNumber_spec (input : InputElement) :
    (MarkedValid (validatePhoneNumber input) ↔
      (input.value = [] ∨ PhoneShape (stripWhiteSpace input.value))) ∧
    (MarkedInvalid "Please enter a valid phone number" (validatePhoneNumber input) ↔
      (input.value ≠ [] ∧ ¬ PhoneShape (stripWhiteSpace input.value))) ∧
    (validatePhoneNumber input).value = input.value := by
  by_cases h : input.value ≠ [] ∧ ¬ PhoneShape (stripWhiteSpace input.value)
  · rw [validatePhoneNumber_bad input h]
    refine ⟨⟨fun hv => absurd hv.1 (by simp), fun hs => ?_⟩,
      ⟨fun _ => h, fun _ => ⟨rfl, mem_classListAdd _ _⟩⟩, rfl⟩
    rcases hs with hs | hs
    · exact absurd hs h.1
    · exact absurd hs h.2
  · rw [validatePhoneNumber_good input h]
    refine ⟨⟨fun _ => ?_, fun _ => ⟨rfl, not_mem_classListRemove _ _⟩⟩,
      ⟨fun hi => absurd hi.1 (by simp), fun hs => absurd hs h⟩, rfl⟩
    by_cases hv : input.value = []
    · exact Or.inl hv
    · right
      by_contra hp
      exact h ⟨hv, hp⟩

/-- C5: `validateEmail` marks the field invalid exactly when the value is non-empty and
is not of the form `local@domain.tld` (no white space, exactly one `@`, non-empty local
part, and a domain part containing a `.` with a character before and after it); it marks
it valid otherwise. In particular `a@b.co` and the empty string are marked valid, and
`a@@b.co`, `a b@c.co` and `abc` are marked invalid. -/
theorem validateEmail_spec :
    (∀ input : InputElement,
      (MarkedInvalid "Please enter a valid email address" (validateEmail input) ↔
        (input.value ≠ [] ∧ ¬ EmailShape input.value)) ∧
      (MarkedValid (validateEmail input) ↔ ¬ (input.value ≠ [] ∧ ¬ EmailShape input.value)) ∧
      (validateEmail input).value = input.value) ∧
    (∀ msg cl, MarkedValid (validateEmail ⟨jsStr "a@b.co", msg, cl⟩)) ∧
    (∀ msg cl, MarkedValid (validateEmail ⟨jsStr "", msg, cl⟩)) ∧
    (∀ msg cl, MarkedInvalid "Please enter a valid email address"
      (validateEmail ⟨jsStr "a@@b.co", msg, cl⟩)) ∧
    (∀ msg cl, MarkedInvalid "Please enter a valid email address"
      (validateEmail ⟨jsStr "a b@c.co", msg, cl⟩)) ∧
    (∀ msg cl, MarkedInvalid "Please enter a valid email address"
      (validateEmail ⟨jsStr "abc", msg, cl⟩)) := by
  classical
  have general : ∀ input : InputElement,
      (MarkedInvalid "Please enter a valid email address" (validateEmail input) ↔
        (input.value ≠ [] ∧ ¬ EmailShape input.value)) ∧
      (MarkedValid (validateEmail input) ↔ ¬ (input.value ≠ [] ∧ ¬ EmailShape input.value)) ∧
      (validateEmail input).value = input.value := by
    intro input
    by_cases h : input.value ≠ [] ∧ ¬ EmailShape input.value
    · rw [validateEmail_bad input h]
      exact ⟨⟨fun _ => h, fun _ => ⟨rfl, mem_classListAdd _ _⟩⟩,
        ⟨fun hv => absurd hv.1 (by simp), fun hs => absurd h hs⟩, rfl⟩
    · rw [validateEmail_good input h]
      exact ⟨⟨fun hi => absurd hi.1 (by simp), fun hs => absurd hs h⟩,
        ⟨fun _ => h, fun _ => ⟨rfl, not_mem_classListRemove _ _⟩⟩, rfl⟩
  have bad : ∀ (v : JsString) msg cl, v ≠ [] → matchItems emailPattern v = false →
      MarkedInvalid "Please enter a valid email address" (validateEmail ⟨v, msg, cl⟩) := by
    intro v msg cl hv hm
    refine ((general ⟨v, msg, cl⟩).1).mpr ⟨hv, fun hs => ?_⟩
    rw [← matchItems_email_iff] at hs
    simp [hm] at hs
  refine ⟨general, fun msg cl => ?_, fun msg cl => ?_, fun msg cl => ?_, fun msg cl => ?_,
    fun msg cl => ?_⟩
  · refine ((general _).2.1).mpr fun h => h.2 ?_
    exact (matchItems_email_iff (jsStr "a@b.co")).mp (by decide)
  · exact ((general _).2.1).mpr fun h => h.1 rfl
  · exact bad _ msg cl (by decide) (by decide)
  · exact bad _ msg cl (by decide) (by decide)
  · exact bad _ msg cl (by decide) (by decide)

/-! ## Count-up animation -/

theorem increment_eq (c t : Int) : increment c t = -((c - t) / 20) := by
  unfold increment
  rw [Int.ceil_eq_iff]
  have h20 : (0 : ℚ) < 20 := by norm_num
  have hdiv := Int.emod_add_ediv (c - t) 20
  have hmod := Int.emod_nonneg (c - t) (show (20 : Int) ≠ 0 by norm_num)
  have hlt := Int.emod_lt_of_pos (c - t) (show (0 : Int) < 20 by norm_num)
  have hq : ((c - t : Int) : ℚ) =
      (((c - t) % 20 : Int) : ℚ) + 20 * (((c - t) / 20 : Int) : ℚ) := by
    exact_mod_cast hdiv.symm
  have hm0 : (0 : ℚ) ≤ (((c - t) % 20 : Int) : ℚ) := by exact_mod_cast hmod
  have hm1 : (((c - t) % 20 : Int) : ℚ) < 20 := by exact_mod_cast hlt
  push_cast at hq ⊢
  constructor
  · rw [lt_div_iff₀ h20]; linarith
  · rw [div_le_iff₀ h20]; linarith

theorem increment_bounds (c t : Int) (h : c < t) :
    1 ≤ increment c t ∧ c + increment c t ≤ t := by
  rw [increment_eq]
  constructor <;> omega

theorem animateCountUp_lt (c t : Int) (h : c < t) :
    animateCountUp c t = (c + increment c t, true) := by
  simp [animateCountUp, h]

theorem animateCountUp_ge (c t : Int) (h : t ≤ c) :
    animateCountUp c t = (t, false) := by
  simp [animateCountUp, not_lt.mpr h]

theorem animateWrites_ge (fuel : Nat) (c t : Int) (h : t ≤ c) :
    animateWrites (fuel + 1) c t = some [t] := by
  simp [animateWrites, animateCountUp_ge c t h]

theorem animateWrites_lt (fuel : Nat) (c t : Int) (h : c < t) :
    animateWrites (fuel + 1) c t =
      (animateWrites fuel (c + increment c t) t).map ((c + increment c t) :: ·) := by
  simp [animateWrites, animateCountUp_lt c t h]

/-- The shape of the chain of writes from `c < t`: strictly increasing values up to and
including `t`, followed by the final write of `t`. -/
theorem animateWrites_shape (n : Nat) :
    ∀ c t : Int, c < t → (t - c).toNat ≤ n →
      ∃ incs, animateWrites (n + 1) c t = some (incs ++ [t]) ∧
        List.Chain (· < ·) c incs ∧ (∀ w ∈ incs, w ≤ t) ∧ incs.getLast? = some t := by
  induction n with
  | zero => intro c t h hn; omega
  | succ m ih =>
    intro c t h hn
    obtain ⟨h1, h2⟩ := increment_bounds c t h
    rw [animateWrites_lt _ c t h]
    by_cases hw : c + increment c t < t
    · have hfuel : (t - (c + increment c t)).toNat ≤ m := by omega
      obtain ⟨incs, he, hc, hle, hl⟩ := ih _ t hw hfuel
      refine ⟨(c + increment c t) :: incs, ?_, ?_, ?_, ?_⟩
      · rw [he]; rfl
      · exact List.Chain.cons (by omega) hc
      · intro w hwm
        rcases List.mem_cons.mp hwm with rfl | hmem
        · exact h2
        · exact hle w hmem
      · cases incs with
        | nil => simp at hl
        | cons a as => simpa [List.getLast?_cons_cons] using hl
    · have hwt : c + increment c t = t := by omega
      rw [hwt, animateWrites_ge m t t (le_refl t)]
      exact ⟨[t], rfl, List.Chain.cons h List.Chain.nil, by simp, by simp⟩

theorem includes_iff (text term : JsString) : includes text term = true ↔ term <:+: text := by
  simp [includes]

theorem updateTableCount_tables (doc : Document) (tableId : JsString) (visible total : Nat) :
    (updateTableCount doc tableId visible total).tables = doc.tables := by
  unfold updateTableCount
  split <;> rfl

theorem updateTableCount_counters (tables : JsString → Option (List TableRow))
    (counters : JsString → Option JsString) (tableId old : JsString)
    (visible total : Nat) (h : counters tableId = some old) :
    (updateTableCount ⟨tables, counters⟩ tableId visible total).counters tableId =
      some (if visible = total then jsStr "(" ++ numberText total ++ jsStr ")"
        else jsStr "(" ++ numberText visible ++ jsStr " of " ++ numberText total ++
          jsStr ")") := by
  unfold updateTableCount
  simp only [h]
  simp

/-- C8: for every query shorter than 2 code units (the empty string and `a` included),
`searchTutors` returns normally, issues no network request, leaves the search input (and
so its `loading` marker) as it was, and leaves every tutor entry shown (`display` is
`block`), whatever its previous visibility. -/
theorem searchTutors_short (page : SearchPage) (query : JsString) (h : query.length < 2) :
    ∃ out, searchTutors page query = .ok out ∧
      out.requests = page.requests ∧
      out.tutorSearch = page.tutorSearch ∧
      out.tutorItems.map (·.checkboxValue) = page.tutorItems.map (·.checkboxValue) ∧
      ∀ item ∈ out.tutorItems, item.display = "block" := by
  refine ⟨showAllTutors page, by simp [searchTutors, h], rfl, rfl, ?_, ?_⟩
  · simp [showAllTutors, Function.comp_def]
  · intro item hitem
    simp only [showAllTutors, List.mem_map] at hitem
    obtain ⟨i, _, rfl⟩ := hitem
    rfl

theorem searchTutors_short_witness :
    (jsStr "a").length < 2 ∧
    ∃ out, searchTutors ⟨some ⟨jsStr "a", "", []⟩,
        [⟨jsStr "1", "none"⟩, ⟨jsStr "2", "block"⟩, ⟨jsStr "3", ""⟩], []⟩ (jsStr "a") =
        .ok out ∧
      out.requests = [] ∧
      out.tutorSearch = some ⟨jsStr "a", "", []⟩ ∧
      out.tutorItems.map (·.checkboxValue) = [jsStr "1", jsStr "2", jsStr "3"] ∧
      ∀ item ∈ out.tutorItems, item.display = "block" :=
  ⟨by decide, searchTutors_short ⟨some ⟨jsStr "a", "", []⟩,
    [⟨jsStr "1", "none"⟩, ⟨jsStr "2", "block"⟩, ⟨jsStr "3", ""⟩], []⟩ (jsStr "a")
    (by decide)⟩

/-! ## Debounced tutor search -/

theorem runDue_of_not_due (w : World) (now : Nat) (h : ∀ t ∈ w.pending, now < t.due) :
    runDue w now = w := by
  have hnil : (w.pending.filter fun t => decide (t.due ≤ now)) = [] := by
    rw [List.filter_eq_nil_iff]
    intro t ht
    have := h t ht
    simp
    omega
  simp [runDue, hnil]

theorem onInput_of_idle (w : World) (field : InputElement) (now : Nat) (v : JsString)
    (hf : w.page.tutorSearch = some field) (hp : w.pending = []) :
    Armed w.searchCalls w.page.requests (onInput w now v) now v := by
  refine ⟨w.nextTimerId, { field with value := v }, ?_, ?_, ?_, rfl, ?_, ?_⟩ <;>
    simp only [onInput, hf]
  rw [hp]
  cases w.searchTimeout <;> simp [clearTimeout]

theorem onInput_of_armed (calls : List (Nat × JsString)) (reqs : List JsString) (w : World)
    (t now : Nat) (v v' : JsString) (h : Armed calls reqs w t v) :
    Armed calls reqs (onInput w now v') now v' := by
  obtain ⟨k, field, hp, hs, hf, _, hc, hr⟩ := h
  refine ⟨w.nextTimerId, { field with value := v' }, ?_, ?_, ?_, rfl, ?_, ?_⟩ <;>
    simp only [onInput, hf]
  · rw [hp, hs]
    simp [clearTimeout]
  · exact hc
  · exact hr

theorem armed_pending_length (calls : List (Nat × JsString)) (reqs : List JsString)
    (w : World) (t : Nat) (v : JsString) (h : Armed calls reqs w t v) :
    w.pending.length = 1 := by
  obtain ⟨k, field, hp, _⟩ := h
  rw [hp]
  rfl

theorem run_of_armed (calls : List (Nat × JsString)) (reqs : List JsString)
    (ks : List (Nat × JsString)) :
    ∀ (w : World) (k : Nat × JsString), Armed calls reqs w k.1 k.2 →
      List.Chain Within300 k ks →
      (∀ n, (run w (ks.take n)).pending.length ≤ 1) ∧
      Armed calls reqs (run w ks) ((k :: ks).getLast (List.cons_ne_nil _ _)).1
        ((k :: ks).getLast (List.cons_ne_nil _ _)).2 := by
  induction ks with
  | nil =>
    intro w k h _
    refine ⟨fun n => ?_, h⟩
    simp [run, armed_pending_length calls reqs w k.1 k.2 h]
  | cons k' ks ih =>
    intro w k h hchain
    rw [List.chain_cons] at hchain
    obtain ⟨hgap, hrest⟩ := hchain
    have hquiet : runDue w k'.1 = w := by
      apply runDue_of_not_due
      obtain ⟨i, field, hp, _⟩ := h
      intro t ht
      rw [hp] at ht
      simp at ht
      subst ht
      exact hgap.2
    have hstep : Armed calls reqs (onInput (runDue w k'.1) k'.1 k'.2) k'.1 k'.2 := by
      rw [hquiet]
      exact onInput_of_armed calls reqs w k.1 k'.1 k.2 k'.2 h
    obtain ⟨hlen, harmed⟩ := ih _ k' hstep hrest
    refine ⟨fun n => ?_, ?_⟩
    · cases n with
      | zero => simp [run, armed_pending_length calls reqs w k.1 k.2 h]
      | succ n => simpa [run] using hlen n
    · rw [List.getLast_cons_cons]
      simpa [run] using harmed

theorem searchTutors_requests (page : SearchPage) (query : JsString) :
    (match searchTutors page query with
      | .ok p => p
      | .error p => p).requests = page.requests ++ requestsFor query ∧
    ((match searchTutors page query with
      | .ok p => p
      | .error p => p).tutorSearch = none ↔ page.tutorSearch = none) := by
  unfold searchTutors requestsFor
  by_cases hq : query.length < 2
  · simp [hq, showAllTutors]
  · simp only [hq, if_false]
    have hl : (showSearchLoading page).requests = page.requests := by
      unfold showSearchLoading; split <;> rfl
    have ht : (showSearchLoading page).tutorSearch = none ↔ page.tutorSearch = none := by
      unfold showSearchLoading; split <;> simp_all
    cases encodeURIComponent query with
    | none => simpa [hl] using ht
    | some q => simpa [hl] using ht

theorem settle_of_armed (calls : List (Nat × JsString)) (reqs : List JsString) (w : World)
    (t : Nat) (v : JsString) (h : Armed calls reqs w t v) :
    (settle w).searchCalls = calls ++ [(t + 300, v)] ∧
    (settle w).page.requests = reqs ++ requestsFor v ∧
    (settle w).pending = [] := by
  obtain ⟨k, field, hp, _, hf, hv, hc, hr⟩ := h
  have hs : settle w = fire w ⟨k, t + 300⟩ := by
    simp [settle, hp]
  rw [hs]
  simp only [fire, hf]
  refine ⟨by simp [hc, hv], ?_, by simp [hp]⟩
  rw [(searchTutors_requests w.page field.value).1, hr, hv]

theorem requestsFor_short (query : JsString) (h : query.length < 2) :
    requestsFor query = [] := by
  simp [requestsFor, h]

theorem requestsFor_length (query : JsString) : (requestsFor query).length ≤ 1 := by
  unfold requestsFor
  split
  · simp
  · split <;> simp

/-- C7 (amended): from a page with the search field and no search scheduled, for every
non-empty sequence of keystrokes in which each follows the previous one by less than
300 ms, at most one delayed search is scheduled after any number of the keystrokes, and
the whole sequence triggers exactly one call of `searchTutors`, 300 ms after the last
keystroke and with the final value of the field; that call issues the requests
`requestsFor` gives for the final value (none when it is shorter than 2 code units, at
most one otherwise), and nothing stays scheduled. -/
theorem debounce_single_call (w : World) (field : InputElement) (first : Nat × JsString)
    (rest : List (Nat × JsString)) (hfield : w.page.tutorSearch = some field)
    (hidle : w.pending = []) (hgaps : List.Chain Within300 first rest) :
    (∀ n, (run w ((first :: rest).take n)).pending.length ≤ 1) ∧
    (settle (run w (first :: rest))).searchCalls =
      w.searchCalls ++ [(((first :: rest).getLast (List.cons_ne_nil _ _)).1 + 300,
        ((first :: rest).getLast (List.cons_ne_nil _ _)).2)] ∧
    (settle (run w (first :: rest))).page.requests =
      w.page.requests ++ requestsFor ((first :: rest).getLast (List.cons_ne_nil _ _)).2 ∧
    (settle (run w (first :: rest))).pending = [] := by
  have hquiet : runDue w first.1 = w :=
    runDue_of_not_due w first.1 (by rw [hidle]; simp)
  have hstep : Armed w.searchCalls w.page.requests (onInput (runDue w first.1) first.1 first.2)
      first.1 first.2 := by
    rw [hquiet]
    exact onInput_of_idle w field first.1 first.2 hfield hidle
  obtain ⟨hlen, harmed⟩ := run_of_armed w.searchCalls w.page.requests rest _ first hstep hgaps
  have hrun : run w (first :: rest) = run (onInput (runDue w first.1) first.1 first.2) rest := by
    simp [run]
  refine ⟨fun n => ?_, ?_⟩
  · cases n with
    | zero => simp [run, hidle]
    | succ n => simpa [run] using hlen n
  · rw [hrun]
    exact settle_of_armed _ _ _ _ _ harmed

theorem debounce_single_call_witness :
    freshWorld.page.tutorSearch = some ⟨[], "", []⟩ ∧ freshWorld.pending = [] ∧
    List.Chain Within300 (0, jsStr "m") [(100, jsStr "ma"), (250, jsStr "mat")] ∧
    ((∀ n, (run freshWorld
      (((0, jsStr "m") :: [(100, jsStr "ma"), (250, jsStr "mat")]).take n)).pending.length ≤ 1) ∧
    (settle (run freshWorld ((0, jsStr "m") :: [(100, jsStr "ma"), (250, jsStr "mat")]))).searchCalls =
      freshWorld.searchCalls ++
        [((((0, jsStr "m") :: [(100, jsStr "ma"), (250, jsStr "mat")]).getLast
            (List.cons_ne_nil _ _)).1 + 300,
          (((0, jsStr "m") :: [(100, jsStr "ma"), (250, jsStr "mat")]).getLast
            (List.cons_ne_nil _ _)).2)] ∧
    (settle (run freshWorld ((0, jsStr "m") :: [(100, jsStr "ma"), (250, jsStr "mat")]))).page.requests =
      freshWorld.page.requests ++
        requestsFor (((0, jsStr "m") :: [(100, jsStr "ma"), (250, jsStr "mat")]).getLast
          (List.cons_ne_nil _ _)).2 ∧
    (settle (run freshWorld
      ((0, jsStr "m") :: [(100, jsStr "ma"), (250, jsStr "mat")]))).pending = []) ∧
    (settle (run freshWorld [(0, jsStr "m"), (100, jsStr "ma"), (250, jsStr "mat")])).searchCalls =
      [(550, jsStr "mat")] ∧
    (settle (run freshWorld [(0, jsStr "m"), (100, jsStr "ma"), (250, jsStr "mat")])).page.requests =
      [jsStr "/api/tutors/search?q=mat"] :=
  ⟨rfl, rfl,
    List.Chain.cons ⟨by decide, by decide⟩
      (List.Chain.cons ⟨by decide, by decide⟩ List.Chain.nil),
    debounce_single_call freshWorld ⟨[], "", []⟩ (0, jsStr "m")
      [(100, jsStr "ma"), (250, jsStr "mat")] rfl rfl
      (List.Chain.cons ⟨by decide, by decide⟩
        (List.Chain.cons ⟨by decide, by decide⟩ List.Chain.nil)),
    by decide, by decide⟩

/-- C7 as stated fails: the keystrokes `ab` at 0 ms and then `a` (one character deleted)
at 100 ms follow each other within 300 ms and trigger exactly one call of `searchTutors`,
at 400 ms with the final value `a`; that call issues no network request. -/
theorem debounce_network_call_counterexample :
    List.Chain Within300 (0, jsStr "ab") [(100, jsStr "a")] ∧
    (settle (run freshWorld [(0, jsStr "ab"), (100, jsStr "a")])).searchCalls =
      [(400, jsStr "a")] ∧
    (settle (run freshWorld [(0, jsStr "ab"), (100, jsStr "a")])).page.requests = [] ∧
    (settle (run freshWorld [(0, jsStr "ab"), (100, jsStr "a")])).page.requests.length ≠ 1 :=
  ⟨List.Chain.cons ⟨by decide, by decide⟩ List.Chain.nil, by decide, by decide, by decide⟩

/-! ## Local storage and the theme preference -/

theorem find_putItem (items : List (JsString × JsString)) (key value : JsString) :
    ((putItem items key value).find? fun e => e.1 == key) = some (key, value) := by
  unfold putItem
  split
  · rename_i hany
    induction items with
    | nil => simp at hany
    | cons e es ih =>
      by_cases he : e.1 = key
      · simp [he]
      · have hes : es.any (fun e => e.1 == key) = true := by
          simpa [he] using hany
        simpa [he] using ih hes
  · rename_i hany
    have hnone : (items.find? fun e => e.1 == key) = none := by
      rw [List.find?_eq_none]
      intro e he hk
      exact hany (List.any_eq_true.mpr ⟨e, he, hk⟩)
    simp [List.find?_append, hnone]

theorem getItem_of_setItem (store stored : Storage) (key value : JsString)
    (h : setItem store key value = .ok stored) :
    getItem stored key = .ok (some value) := by
  unfold setItem at h
  split at h
  · cases h
  · rename_i hd
    split at h
    · cases h
    · cases h
      simp [getItem, hd, find_putItem]

theorem jsonQuote_ne_nil (s : JsString) : jsonQuote s ≠ [] := by
  simp [jsonQuote]

theorem newTheme_cases (currentTheme : Option JsString) :
    (newTheme currentTheme = jsStr "light" ↔ currentTheme = some (jsStr "dark")) ∧
    (newTheme currentTheme = jsStr "dark" ↔ currentTheme ≠ some (jsStr "dark")) := by
  unfold newTheme
  by_cases h : currentTheme = some (jsStr "dark")
  · rw [if_pos h]
    exact ⟨⟨fun _ => h, fun _ => rfl⟩, ⟨fun hc => absurd hc (by decide), fun hc => absurd h hc⟩⟩
  · rw [if_neg h]
    exact ⟨⟨fun hc => absurd hc (by decide), fun hc => absurd hc h⟩, ⟨fun _ => h, fun _ => rfl⟩⟩

theorem saveToLocalStorage_ok (json : JsonBuiltins) (browser : Browser) (key : JsString)
    (data : JsValue) :
    ∃ after, saveToLocalStorage json browser key data = .ok after ∧
      (∀ s, saveBody json browser.storage key data = .ok s → after.storage = s) ∧
      (∀ e, saveBody json browser.storage key data = .error e →
        after.storage = browser.storage) := by
  unfold saveToLocalStorage
  cases h : saveBody json browser.storage key data with
  | ok s =>
    refine ⟨_, rfl, ?_, ?_⟩
    · intro s' hs
      cases hs
      rfl
    · intro e he
      cases he
  | error e =>
    refine ⟨_, rfl, ?_, ?_⟩
    · intro s' hs
      cases hs
    · intro _ _
      rfl

theorem loadFromLocalStorage_ok (json : JsonBuiltins) (browser : Browser) (key : JsString) :
    ∃ value after, loadFromLocalStorage json browser key = .ok (value, after) ∧
      after.storage = browser.storage ∧
      (∀ v, loadBody json browser.storage key = .ok v → value = v) ∧
      (∀ e, loadBody json browser.storage key = .error e → value = .null) := by
  unfold loadFromLocalStorage
  cases h : loadBody json browser.storage key with
  | ok v =>
    refine ⟨_, _, rfl, rfl, ?_, ?_⟩
    · intro v' hv
      cases hv
      rfl
    · intro e he
      cases he
  | error e =>
    refine ⟨_, _, rfl, rfl, ?_, ?_⟩
    · intro v' hv
      cases hv
    · intro _ _
      rfl

/-- C10: `loadFromLocalStorage` never throws: for every key and every store it returns
normally, leaving the store as it was, with `null` when the store read fails, when the
key is absent, or when the stored text is not valid JSON, and with the parsed value
otherwise. Likewise `saveToLocalStorage` returns normally for every key and value: a
failure of the serialisation or of the store write is not propagated, and then the store
is left as it was. -/
theorem localStorage_helpers_never_throw (json : JsonBuiltins) :
    (∀ (browser : Browser) (key : JsString),
      ∃ value after, loadFromLocalStorage json browser key = .ok (value, after) ∧
        after.storage = browser.storage ∧
        (∀ e, getItem browser.storage key = .error e → value = .null) ∧
        (getItem browser.storage key = .ok none → value = .null) ∧
        (∀ text e, getItem browser.storage key = .ok (some text) →
          jsonParse json text = .error e → value = .null) ∧
        (∀ text v, getItem browser.storage key = .ok (some text) →
          jsonParse json text = .ok v → value = v)) ∧
    (∀ (browser : Browser) (key : JsString) (data : JsValue),
      ∃ after, saveToLocalStorage json browser key data = .ok after ∧
        (∀ text stored, jsonStringify json data = .ok text →
          setItem browser.storage key text = .ok stored → after.storage = stored) ∧
        (∀ e, jsonStringify json data = .error e → after.storage = browser.storage) ∧
        (∀ text e, jsonStringify json data = .ok text →
          setItem browser.storage key text = .error e →
            after.storage = browser.storage)) := by
  constructor
  · intro browser key
    obtain ⟨value, after, hload, hstore, hok, herr⟩ := loadFromLocalStorage_ok json browser key
    refine ⟨value, after, hload, hstore, ?_, ?_, ?_, ?_⟩
    · intro e hg
      exact herr e (by simp [loadBody, hg])
    · intro hg
      exact hok _ (by simp [loadBody, hg])
    · intro text e hg hp
      by_cases ht : text = []
      · exact hok _ (by simp [loadBody, hg, ht])
      · exact herr e (by simp [loadBody, hg, ht, hp])
    · intro text v hg hp
      by_cases ht : text = []
      · subst ht
        simp [jsonParse] at hp
      · exact hok _ (by simp [loadBody, hg, ht, hp])
  · intro browser key data
    obtain ⟨after, hsave, hok, herr⟩ := saveToLocalStorage_ok json browser key data
    refine ⟨after, hsave, ?_, ?_, ?_⟩
    · intro text stored hs hw
      exact hok _ (by simp [saveBody, hs, hw])
    · intro e hs
      exact herr e (by simp [saveBody, hs])
    · intro text e hs hw
      exact herr e (by simp [saveBody, hs, hw])

theorem localStorage_helpers_never_throw_witness :
    loadFromLocalStorage plainJson
      ⟨⟨[(jsStr "theme", jsonQuote (jsStr "dark"))], false, 100⟩, []⟩ (jsStr "theme") =
      .ok (.str (jsStr "dark"),
        ⟨⟨[(jsStr "theme", jsonQuote (jsStr "dark"))], false, 100⟩, []⟩) ∧
    loadFromLocalStorage plainJson ⟨⟨[(jsStr "theme", jsStr "dark")], false, 100⟩, []⟩
      (jsStr "theme") =
      .ok (.null, ⟨⟨[(jsStr "theme", jsStr "dark")], false, 100⟩,
        ["Error loading from localStorage:"]⟩) ∧
    loadFromLocalStorage plainJson ⟨⟨[(jsStr "theme", jsStr "")], false, 100⟩, []⟩
      (jsStr "theme") =
      .ok (.null, ⟨⟨[(jsStr "theme", jsStr "")], false, 100⟩, []⟩) ∧
    loadFromLocalStorage plainJson ⟨⟨[], false, 100⟩, []⟩ (jsStr "theme") =
      .ok (.null, ⟨⟨[], false, 100⟩, []⟩) ∧
    loadFromLocalStorage plainJson ⟨⟨[], true, 100⟩, []⟩ (jsStr "theme") =
      .ok (.null, ⟨⟨[], true, 100⟩, ["Error loading from localStorage:"]⟩) ∧
    saveToLocalStorage plainJson ⟨⟨[], false, 3⟩, []⟩ (jsStr "theme") (.str (jsStr "dark")) =
      .ok ⟨⟨[], false, 3⟩, ["Error saving to localStorage:"]⟩ ∧
    saveToLocalStorage plainJson ⟨⟨[], false, 100⟩, []⟩ (jsStr "theme") (.other 0) =
      .ok ⟨⟨[], false, 100⟩, ["Error saving to localStorage:"]⟩ ∧
    ((∀ (browser : Browser) (key : JsString),
      ∃ value after, loadFromLocalStorage plainJson browser key = .ok (value, after) ∧
        after.storage = browser.storage ∧
        (∀ e, getItem browser.storage key = .error e → value = .null) ∧
        (getItem browser.storage key = .ok none → value = .null) ∧
        (∀ text e, getItem browser.storage key = .ok (some text) →
          jsonParse plainJson text = .error e → value = .null) ∧
        (∀ text v, getItem browser.storage key = .ok (some text) →
          jsonParse plainJson text = .ok v → value = v)) ∧
    (∀ (browser : Browser) (key : JsString) (data : JsValue),
      ∃ after, saveToLocalStorage plainJson browser key data = .ok after ∧
        (∀ text stored, jsonStringify plainJson data = .ok text →
          setItem browser.storage key text = .ok stored → after.storage = stored) ∧
        (∀ e, jsonStringify plainJson data = .error e → after.storage = browser.storage) ∧
        (∀ text e, jsonStringify plainJson data = .ok text →
          setItem browser.storage key text = .error e →
            after.storage = browser.storage))) :=
  ⟨by decide, by decide, by decide, by decide, by decide, by decide, by decide,
    localStorage_helpers_never_throw plainJson⟩

theorem toggleTheme_ok (json : JsonBuiltins) (page : ThemePage) :
    ∃ browser, saveToLocalStorage json page.browser (jsStr "theme")
        (.str (newTheme page.dataTheme)) = .ok browser ∧
      toggleTheme json page = .ok ⟨some (newTheme page.dataTheme), browser,
        page.notifications ++ [(jsStr "Switched to " ++ newTheme page.dataTheme ++
          jsStr " theme", "info", 2000)]⟩ := by
  obtain ⟨after, hsave, _, _⟩ :=
    saveToLocalStorage_ok json page.browser (jsStr "theme") (.str (newTheme page.dataTheme))
  refine ⟨after, hsave, ?_⟩
  simp only [toggleTheme, hsave, showNotification]

/-- C9 (amended): for every starting state `toggleTheme` returns normally and sets the
theme attribute to `light` if it was `dark` and to `dark` otherwise (also when it was not
set), so the attribute is afterwards one of the two named states. When the store accepts
the write, the text persisted under `theme` is the JSON text of the new attribute value,
and it reads back through `loadFromLocalStorage` as that value wherever `JSON.parse`
inverts `JSON.stringify` on it. When the store rejects the write, the store is left as it
was. From a page with no theme attribute and a working store, one toggle gives `dark` on
the attribute and read back from the store, a second toggle gives `light` on both. -/
theorem toggleTheme_spec :
    (∀ (json : JsonBuiltins) (page : ThemePage),
      ∃ after, toggleTheme json page = .ok after ∧
        after.dataTheme = some (newTheme page.dataTheme) ∧
        (newTheme page.dataTheme = jsStr "light" ↔ page.dataTheme = some (jsStr "dark")) ∧
        (newTheme page.dataTheme = jsStr "dark" ↔ page.dataTheme ≠ some (jsStr "dark")) ∧
        (∀ stored, setItem page.browser.storage (jsStr "theme")
            (jsonQuote (newTheme page.dataTheme)) = .ok stored →
          after.browser.storage = stored ∧
          getItem after.browser.storage (jsStr "theme") =
            .ok (some (jsonQuote (newTheme page.dataTheme))) ∧
          (jsonParse json (jsonQuote (newTheme page.dataTheme)) =
              .ok (.str (newTheme page.dataTheme)) →
            loadFromLocalStorage json after.browser (jsStr "theme") =
              .ok (.str (newTheme page.dataTheme), after.browser))) ∧
        (∀ e, setItem page.browser.storage (jsStr "theme")
            (jsonQuote (newTheme page.dataTheme)) = .error e →
          after.browser.storage = page.browser.storage)) ∧
    (toggleTheme plainJson (unthemedPage false 100) = .ok toggledOnce ∧
      toggledOnce.dataTheme = some (jsStr "dark") ∧
      loadFromLocalStorage plainJson toggledOnce.browser (jsStr "theme") =
        .ok (.str (jsStr "dark"), toggledOnce.browser) ∧
      toggleTheme plainJson toggledOnce = .ok toggledTwice ∧
      toggledTwice.dataTheme = some (jsStr "light") ∧
      loadFromLocalStorage plainJson toggledTwice.browser (jsStr "theme") =
        .ok (.str (jsStr "light"), toggledTwice.browser)) := by
  constructor
  · intro json page
    obtain ⟨browser, hsave, htoggle⟩ := toggleTheme_ok json page
    obtain ⟨after, hsave', hok, herr⟩ :=
      saveToLocalStorage_ok json page.browser (jsStr "theme") (.str (newTheme page.dataTheme))
    rw [hsave] at hsave'
    cases hsave'
    refine ⟨_, htoggle, rfl, (newTheme_cases _).1, (newTheme_cases _).2, ?_, ?_⟩
    · intro stored hw
      have hs : browser.storage = stored := hok stored (by simp [saveBody, jsonStringify, hw])
      have hg : getItem browser.storage (jsStr "theme") =
          .ok (some (jsonQuote (newTheme page.dataTheme))) := by
        rw [hs]
        exact getItem_of_setItem _ _ _ _ hw
      refine ⟨hs, hg, fun hp => ?_⟩
      simp [loadFromLocalStorage, loadBody, hg, jsonQuote_ne_nil, hp]
    · intro e hw
      exact herr e (by simp [saveBody, jsonStringify, hw])
  · exact ⟨by decide, by decide, by decide, by decide, by decide, by decide⟩

/-- C9 as stated fails where the store rejects the write: from a page with no theme
attribute whose store denies access, `toggleTheme` returns normally with the attribute
`dark`, but nothing is persisted under `theme`, which reads back as `null`; the same with
a store that has no room left. -/
theorem toggleTheme_persist_counterexample :
    toggleTheme plainJson (unthemedPage true 100) = .ok (toggledUnsaved true 100) ∧
    (toggledUnsaved true 100).dataTheme = some (jsStr "dark") ∧
    (toggledUnsaved true 100).browser.storage.items = [] ∧
    loadFromLocalStorage plainJson (toggledUnsaved true 100).browser (jsStr "theme") =
      .ok (.null, ⟨⟨[], true, 100⟩,
        ["Error saving to localStorage:", "Error loading from localStorage:"]⟩) ∧
    toggleTheme plainJson (unthemedPage false 3) = .ok (toggledUnsaved false 3) ∧
    (toggledUnsaved false 3).dataTheme = some (jsStr "dark") ∧
    (toggledUnsaved false 3).browser.storage.items = [] ∧
    loadFromLocalStorage plainJson (toggledUnsaved false 3).browser (jsStr "theme") =
      .ok (.null, (toggledUnsaved false 3).browser) :=
  ⟨by decide, by decide, by decide, by decide, by decide, by decide, by decide, by decide⟩

/-! ## Form serialisation -/

theorem ownProperty_setProperty_same (data : List (JsString × Held)) (key : JsString)
    (held : Held) : ownProperty (setProperty data key held) key = some held := by
  unfold ownProperty setProperty
  split
  · rename_i hany
    induction data with
    | nil => simp at hany
    | cons e es ih =>
      by_cases he : e.1 = key
      · simp [he]
      · have hes : es.any (fun e => e.1 == key) = true := by
          simpa [he] using hany
        simpa [he] using ih hes
  · rename_i hany
    have hnone : (data.find? fun e => e.1 == key) = none := by
      rw [List.find?_eq_none]
      intro e he hk
      exact hany (List.any_eq_true.mpr ⟨e, he, hk⟩)
    simp [List.find?_append, hnone]

theorem find_map_replace_other (data : List (JsString × Held)) (key name : JsString)
    (held : Held) (hne : name ≠ key) :
    ((data.map fun e => if e.1 == key then (key, held) else e).find?
      fun e => e.1 == name) = data.find? fun e => e.1 == name := by
  have hne' : key ≠ name := fun h => hne h.symm
  induction data with
  | nil => rfl
  | cons e es ih =>
    simp only [List.map_cons, List.find?_cons]
    by_cases he : e.1 = key
    · have hen : ¬ e.1 = name := fun h => hne (h.symm.trans he)
      simp only [he, beq_self_eq_true, if_true]
      have h1 : (key == name) = false := by simpa using hne'
      rw [h1]
      simpa [he] using ih
    · have h2 : (e.1 == key) = false := by simpa using he
      simp only [h2]
      by_cases hen : e.1 = name
      · simp [hen]
      · have h3 : (e.1 == name) = false := by simpa using hen
        simpa [h3] using ih

theorem ownProperty_setProperty_other (data : List (JsString × Held)) (key name : JsString)
    (held : Held) (hne : name ≠ key) :
    ownProperty (setProperty data key held) name = ownProperty data name := by
  have hne' : key ≠ name := fun h => hne h.symm
  unfold ownProperty setProperty
  split
  · rw [find_map_replace_other data key name held hne]
  · simp [List.find?_append, hne']

theorem submittedUnder_append_same (pre : List (JsString × FormValue)) (key : JsString)
    (value : FormValue) :
    submittedUnder (pre ++ [(key, value)]) key = submittedUnder pre key ++ [value] := by
  simp [submittedUnder, List.filter_append]

theorem submittedUnder_append_other (pre : List (JsString × FormValue)) (key name : JsString)
    (value : FormValue) (hne : name ≠ key) :
    submittedUnder (pre ++ [(key, value)]) name = submittedUnder pre name := by
  have hne' : key ≠ name := fun h => hne h.symm
  simp [submittedUnder, List.filter_append, hne']

theorem mem_of_mem_submittedUnder (pre : List (JsString × FormValue)) (name : JsString)
    (value : FormValue) (h : value ∈ submittedUnder pre name) : ∃ e ∈ pre, e.2 = value := by
  simp only [submittedUnder, List.mem_map, List.mem_filter] at h
  obtain ⟨e, ⟨he, _⟩, hv⟩ := h
  exact ⟨e, he, hv⟩

/-- One turn of the loop keeps the mapping equal to what the specification describes, as
long as the name is not one `data` inherits and no earlier value is the empty string. -/
theorem serializeEntry_collects (data : List (JsString × Held))
    (pre : List (JsString × FormValue)) (key : JsString) (value : FormValue)
    (hinv : ∀ name, ownProperty data name = collected (submittedUnder pre name))
    (hkey : key ∉ objectPrototypeNames)
    (hvalues : ∀ e ∈ pre, e.2 ≠ .text []) :
    ∀ name, ownProperty (serializeEntry data (key, value)) name =
      collected (submittedUnder (pre ++ [(key, value)]) name) := by
  intro name
  by_cases hname : name = key
  · subst hname
    rw [submittedUnder_append_same]
    have hown := hinv name
    unfold serializeEntry getProperty
    simp only []
    cases hvs : submittedUnder pre name with
    | nil =>
      rw [hvs] at hown
      simp only [collected] at hown
      simp [hown, hkey, ownProperty_setProperty_same, collected]
    | cons a rest =>
      rw [hvs] at hown
      cases rest with
      | nil =>
        simp only [collected] at hown
        have ha : a ≠ .text [] := by
          obtain ⟨e, he, hea⟩ := mem_of_mem_submittedUnder pre name a (by rw [hvs]; simp)
          exact hea ▸ hvalues e he
        have htruthy : (Held.single (.value a)).truthy = true := by
          cases a with
          | text s =>
            cases s with
            | nil => exact absurd rfl ha
            | cons _ _ => rfl
          | file _ => rfl
        simp [hown, htruthy, ownProperty_setProperty_same, collected]
      | cons b more =>
        have hown' : ownProperty data name =
            some (.array ((a :: b :: more).map .value)) := by
          rw [hown]; rfl
        have hcol : collected (a :: b :: more ++ [value]) =
            some (.array ((a :: b :: more ++ [value]).map .value)) := rfl
        rw [hcol]
        simp [hown', Held.truthy, ownProperty_setProperty_same]
  · rw [submittedUnder_append_other pre key name value hname, ← hinv name]
    unfold serializeEntry
    simp only []
    split
    · split
      · split <;> exact ownProperty_setProperty_other _ _ _ _ hname
      · exact ownProperty_setProperty_other _ _ _ _ hname
    · exact ownProperty_setProperty_other _ _ _ _ hname

theorem foldl_serializeEntry_collects (rest : List (JsString × FormValue)) :
    ∀ (data : List (JsString × Held)) (pre : List (JsString × FormValue)),
      (∀ name, ownProperty data name = collected (submittedUnder pre name)) →
      (∀ e ∈ pre ++ rest, e.1 ∉ objectPrototypeNames) →
      (∀ e ∈ pre ++ rest, e.2 ≠ .text []) →
      ∀ name, ownProperty (rest.foldl serializeEntry data) name =
        collected (submittedUnder (pre ++ rest) name) := by
  induction rest with
  | nil =>
    intro data pre hinv _ _ name
    simpa using hinv name
  | cons e es ih =>
    intro data pre hinv hkeys hvalues name
    have hstep := serializeEntry_collects data pre e.1 e.2 hinv
      (hkeys e (by simp)) (fun x hx => hvalues x (by simp [hx]))
    have hrec := ih (serializeEntry data e) (pre ++ [e]) hstep
      (fun x hx => hkeys x (by simpa using hx)) (fun x hx => hvalues x (by simpa using hx)) name
    simpa using hrec

/-- Where the code does what the specification describes: when no field is named like a
member of `Object.prototype` and no value is the empty string, the mapping returned
holds, for each name, all values submitted under it in order. -/
theorem serializeForm_collects (entries : List (JsString × FormValue))
    (hkeys : ∀ e ∈ entries, e.1 ∉ objectPrototypeNames ∧ e.1 ≠ jsStr "__proto__")
    (hvalues : ∀ e ∈ entries, e.2 ≠ .text []) :
    ∃ data, serializeForm entries = some data ∧
      ∀ name, ownProperty data name = collected (submittedUnder entries name) := by
  have hproto : entries.any (fun e => e.1 == jsStr "__proto__") = false := by
    rw [List.any_eq_false]
    intro e he
    simpa using (hkeys e he).2
  refine ⟨entries.foldl serializeEntry [], by simp [serializeForm, hproto], ?_⟩
  have := foldl_serializeEntry_collects entries [] []
    (fun name => by simp [ownProperty, submittedUnder, collected])
    (fun e he => (hkeys e (by simpa using he)).1)
    (fun e he => hvalues e (by simpa using he))
  simpa using this

/-- C2 fails on the code: for the entries `tag = ""`, `tag = "x"` the mapping returned
holds the single value `x` under `tag`, the empty string submitted first having been
overwritten, where the specification has the ordered sequence of both values. A later
empty value is kept: `tag = "x"`, `tag = ""` gives the sequence of both. -/
theorem serializeForm_overwrites_empty_value :
    serializeForm [(jsStr "tag", .text []), (jsStr "tag", .text (jsStr "x"))] =
      some [(jsStr "tag", .single (.value (.text (jsStr "x"))))] ∧
    collected (submittedUnder
      [(jsStr "tag", .text []), (jsStr "tag", .text (jsStr "x"))] (jsStr "tag")) =
      some (.array [.value (.text []), .value (.text (jsStr "x"))]) ∧
    (serializeForm [(jsStr "tag", .text []), (jsStr "tag", .text (jsStr "x"))]).map
      (fun data => ownProperty data (jsStr "tag")) ≠
      some (collected (submittedUnder
        [(jsStr "tag", .text []), (jsStr "tag", .text (jsStr "x"))] (jsStr "tag"))) ∧
    serializeForm [(jsStr "tag", .text (jsStr "x")), (jsStr "tag", .text [])] =
      some [(jsStr "tag", .array [.value (.text (jsStr "x")), .value (.text [])])] := by
  refine ⟨by decide, by decide, by decide, by decide⟩

end Mentorscue
